import Mathlib

/-!
Verification of the GEMM tunable-op parameter layer
(`aten/src/ATen/cuda/tunable/GemmCommon.h`).

The embedding models:
* the two descriptor variants `GemmParams` and `GemmStridedBatchedParams`
  with their fields (machine integers are modelled as `Nat`; the private
  `duplicate_inputs_` flag as a `Bool`; scalar coefficients as `ℚ`);
* device memory as an explicit `Heap`: a bump allocator (`nextAddr`),
  per-address buffer contents (`mem`, a flat sequence of element values,
  modelled as exact rationals in place of floating-point values), and a
  freed-set (`freed`) recording which addresses `raw_delete` has released.
  Byte sizes in the source are `sizeofT *` an element count; memory is
  modelled at element granularity, so a copy of `GetSizeC()` bytes moves
  `ldc*n` (resp. `ldc*n*batch`) elements;
* the methods `Signature`, `GetSizeA/B/C`, `GetSize`, `DeepCopy`, `Delete`
  and `NumericalCheck` translated line by line from the header.
  `NumericalCheck` in the source returns only the status and logs the last
  successful `(atol, rtol)`; the embedding returns that tracked pair
  alongside the status so the reported tolerances can be reasoned about.
-/

/-- Status codes of the tuning framework (`TuningStatus`); the header under
verification only produces `OK` and `FAIL`. -/
inductive TuningStatus where
  | OK : TuningStatus
  | FAIL : TuningStatus
  | UNSUPPORTED : TuningStatus
deriving DecidableEq

/-- `enum class BlasOp { N, T }`. -/
inductive BlasOp where
  | N : BlasOp
  | T : BlasOp
deriving DecidableEq

/-- `BlasOpToString`. -/
def BlasOpToString (op : BlasOp) : String :=
  match op with
  | BlasOp.N => "N"
  | BlasOp.T => "T"

/-- Little-endian decimal digits of `n`, with explicit fuel; mirrors the
digit extraction of `std::to_string`, structural so that concrete
signatures evaluate by `rfl`/`decide`. -/
def digitsAux : Nat → Nat → List Nat
  | _, 0 => []
  | 0, _ + 1 => []
  | fuel + 1, n + 1 => ((n + 1) % 10) :: digitsAux fuel ((n + 1) / 10)

/-- Little-endian decimal digits of `n` (empty for `0`). -/
def natDigits (n : Nat) : List Nat := digitsAux n n

/-- Little-endian decimal decoding, inverse of `natDigits`. -/
def ofDigitsLE : List Nat → Nat
  | [] => 0
  | d :: ds => d + 10 * ofDigitsLE ds

/-- ASCII digit character for a decimal digit. -/
def charOfDigit (d : Nat) : Char := Char.ofNat (48 + d)

/-- Big-endian decimal character rendering of `n`, the form in which
`c10::str` prints the integer fields (positive values; `0` renders empty,
which only occurs outside the valid-descriptor range). -/
def natRepr (n : Nat) : List Char := ((natDigits n).map charOfDigit).reverse

/-- Device-memory state: next fresh address, contents per address, and the
set of addresses already released by `raw_delete`.  The CUDA caching
allocator is consumed as an opaque allocate/free/async-copy service; it is
modelled as a bump allocator over abstract addresses. -/
structure Heap where
  nextAddr : Nat
  mem : Nat → List ℚ
  freed : Nat → Bool

/-- `c10::cuda::CUDACachingAllocator::raw_alloc`: returns a fresh address;
the new buffer's contents are uninitialized (whatever `mem` holds there). -/
def raw_alloc (h : Heap) : Nat × Heap :=
  (h.nextAddr, { h with nextAddr := h.nextAddr + 1 })

/-- `c10::cuda::CUDACachingAllocator::memcpyAsync`: overwrite the
destination buffer with the first `count` elements of the source buffer
(`count` elements stand for `count * sizeof(T)` bytes). -/
def memcpyAsync (h : Heap) (dst src count : Nat) : Heap :=
  { h with mem := fun ad => if ad = dst then (h.mem src).take count else h.mem ad }

/-- `c10::cuda::CUDACachingAllocator::raw_delete`: mark an address freed. -/
def raw_delete (h : Heap) (ad : Nat) : Heap :=
  { h with freed := fun x => if x = ad then true else h.freed x }

/-- `at::from_blob(ptr, {count}, options)` followed by widening: view the
first `count` elements stored at an address. -/
def readBuf (h : Heap) (ad count : Nat) : List ℚ := (h.mem ad).take count

/-- `GemmParams<T>`: the dense descriptor.  Dimensions, leading strides and
buffer pointers are modelled as `Nat`, the scalar coefficients as `ℚ`, the
private `duplicate_inputs_` flag as `Bool`. -/
structure GemmParams where
  transa : Char
  transb : Char
  m : Nat
  n : Nat
  k : Nat
  alpha : ℚ
  a : Nat
  lda : Nat
  b : Nat
  ldb : Nat
  beta : ℚ
  c : Nat
  ldc : Nat
  duplicate_inputs_ : Bool

/-- `GemmParams()`: the default constructor sets `duplicate_inputs_ = false`
and leaves every other field uninitialized (here: caller-supplied). -/
def GemmParams.init (transa transb : Char) (m n k : Nat) (alpha : ℚ)
    (a lda b ldb : Nat) (beta : ℚ) (c ldc : Nat) : GemmParams :=
  { transa := transa, transb := transb, m := m, n := n, k := k,
    alpha := alpha, a := a, lda := lda, b := b, ldb := ldb,
    beta := beta, c := c, ldc := ldc, duplicate_inputs_ := false }

/-- `GemmParams::Signature`: `c10::str(transa, transb, "_", m, "_", n, "_", k)`. -/
def GemmParams.Signature (p : GemmParams) : String :=
  String.mk ([p.transa, p.transb] ++ '_' :: natRepr p.m ++ '_' :: natRepr p.n
    ++ '_' :: natRepr p.k)

/-- `GemmParams::GetSizeA`; `sizeofT` stands for `sizeof(T)`. -/
def GemmParams.GetSizeA (sizeofT : Nat) (p : GemmParams) : Nat :=
  sizeofT * p.lda * (if p.transa = 'n' ∨ p.transa = 'N' then p.k else p.m)

/-- `GemmParams::GetSizeB`. -/
def GemmParams.GetSizeB (sizeofT : Nat) (p : GemmParams) : Nat :=
  sizeofT * p.ldb * (if p.transb = 'n' ∨ p.transb = 'N' then p.n else p.k)

/-- `GemmParams::GetSizeC`. -/
def GemmParams.GetSizeC (sizeofT : Nat) (p : GemmParams) : Nat :=
  sizeofT * p.ldc * p.n

/-- `GemmParams::GetSize`: `size = GetSizeC(); if (duplicate_inputs) { size
+= GetSizeA(); size += GetSizeB(); }`. -/
def GemmParams.GetSize (sizeofT : Nat) (p : GemmParams) (duplicate_inputs : Bool) : Nat :=
  let size := GemmParams.GetSizeC sizeofT p
  if duplicate_inputs then
    size + GemmParams.GetSizeA sizeofT p + GemmParams.GetSizeB sizeofT p
  else size

/-- `GemmParams::DeepCopy`: `*copy = *this` (which copies every field,
`duplicate_inputs_` included), allocate a fresh output buffer of
`GetSizeC()` bytes (`ldc*n` elements) and `memcpyAsync` the receiver's
output into it; when `duplicate_inputs` is requested additionally allocate
uninitialized input buffers and set the copy's flag. -/
def GemmParams.DeepCopy (p : GemmParams) (duplicate_inputs : Bool) (h : Heap) :
    GemmParams × Heap :=
  let copy := p
  let alloc1 := raw_alloc h
  let cAddr := alloc1.1
  let h1 := alloc1.2
  let h2 := memcpyAsync h1 cAddr p.c (p.ldc * p.n)
  let copy1 := { copy with c := cAddr }
  if duplicate_inputs then
    let alloc2 := raw_alloc h2
    let alloc3 := raw_alloc alloc2.2
    ({ copy1 with a := alloc2.1, b := alloc3.1, duplicate_inputs_ := true },
      alloc3.2)
  else
    (copy1, h2)

/-- `GemmParams::Delete`: `raw_delete(c)`, then, if `duplicate_inputs_`,
`raw_delete(a)` and `raw_delete(b)`.  No precondition is checked. -/
def GemmParams.Delete (p : GemmParams) (h : Heap) : Heap :=
  let h1 := raw_delete h p.c
  if p.duplicate_inputs_ then raw_delete (raw_delete h1 p.a) p.b else h1

/-- `GemmStridedBatchedParams<T>`: the batched-strided descriptor. -/
structure GemmStridedBatchedParams where
  transa : Char
  transb : Char
  m : Nat
  n : Nat
  k : Nat
  alpha : ℚ
  a : Nat
  lda : Nat
  stride_a : Nat
  b : Nat
  ldb : Nat
  stride_b : Nat
  beta : ℚ
  c : Nat
  ldc : Nat
  stride_c : Nat
  batch : Nat
  duplicate_inputs_ : Bool

/-- `GemmStridedBatchedParams()`: default constructor, flag cleared. -/
def GemmStridedBatchedParams.init (transa transb : Char) (m n k : Nat) (alpha : ℚ)
    (a lda stride_a b ldb stride_b : Nat) (beta : ℚ) (c ldc stride_c batch : Nat) :
    GemmStridedBatchedParams :=
  { transa := transa, transb := transb, m := m, n := n, k := k,
    alpha := alpha, a := a, lda := lda, stride_a := stride_a,
    b := b, ldb := ldb, stride_b := stride_b, beta := beta,
    c := c, ldc := ldc, stride_c := stride_c, batch := batch,
    duplicate_inputs_ := false }

/-- `GemmStridedBatchedParams::Signature`:
`c10::str(transa, transb, "_", m, "_", n, "_", k, "_B_", batch)`. -/
def GemmStridedBatchedParams.Signature (p : GemmStridedBatchedParams) : String :=
  String.mk ([p.transa, p.transb] ++ '_' :: natRepr p.m ++ '_' :: natRepr p.n
    ++ '_' :: natRepr p.k ++ '_' :: 'B' :: '_' :: natRepr p.batch)

/-- `GemmStridedBatchedParams::GetSizeA`. -/
def GemmStridedBatchedParams.GetSizeA (sizeofT : Nat) (p : GemmStridedBatchedParams) : Nat :=
  sizeofT * p.lda * (if p.transa = 'n' ∨ p.transa = 'N' then p.k else p.m) * p.batch

/-- `GemmStridedBatchedParams::GetSizeB`. -/
def GemmStridedBatchedParams.GetSizeB (sizeofT : Nat) (p : GemmStridedBatchedParams) : Nat :=
  sizeofT * p.ldb * (if p.transb = 'n' ∨ p.transb = 'N' then p.n else p.k) * p.batch

/-- `GemmStridedBatchedParams::GetSizeC`. -/
def GemmStridedBatchedParams.GetSizeC (sizeofT : Nat) (p : GemmStridedBatchedParams) : Nat :=
  sizeofT * p.ldc * p.n * p.batch

/-- `GemmStridedBatchedParams::GetSize`. -/
def GemmStridedBatchedParams.GetSize (sizeofT : Nat) (p : GemmStridedBatchedParams)
    (duplicate_inputs : Bool) : Nat :=
  let size := GemmStridedBatchedParams.GetSizeC sizeofT p
  if duplicate_inputs then
    size + GemmStridedBatchedParams.GetSizeA sizeofT p
      + GemmStridedBatchedParams.GetSizeB sizeofT p
  else size

/-- `GemmStridedBatchedParams::DeepCopy` (same shape as the dense one; the
output copy moves `GetSizeC()` bytes, i.e. `ldc*n*batch` elements). -/
def GemmStridedBatchedParams.DeepCopy (p : GemmStridedBatchedParams)
    (duplicate_inputs : Bool) (h : Heap) : GemmStridedBatchedParams × Heap :=
  let copy := p
  let alloc1 := raw_alloc h
  let cAddr := alloc1.1
  let h1 := alloc1.2
  let h2 := memcpyAsync h1 cAddr p.c (p.ldc * p.n * p.batch)
  let copy1 := { copy with c := cAddr }
  if duplicate_inputs then
    let alloc2 := raw_alloc h2
    let alloc3 := raw_alloc alloc2.2
    ({ copy1 with a := alloc2.1, b := alloc3.1, duplicate_inputs_ := true },
      alloc3.2)
  else
    (copy1, h2)

/-- `GemmStridedBatchedParams::Delete`. -/
def GemmStridedBatchedParams.Delete (p : GemmStridedBatchedParams) (h : Heap) : Heap :=
  let h1 := raw_delete h p.c
  if p.duplicate_inputs_ then raw_delete (raw_delete h1 p.a) p.b else h1

/-- The dense descriptor carrying the same `transa, transb, m, n, k, lda,
ldb, ldc` (and remaining shared fields) as a batched one; used to compare
batched byte extents and signatures with their dense counterparts. -/
def GemmStridedBatchedParams.toDense (p : GemmStridedBatchedParams) : GemmParams :=
  { transa := p.transa, transb := p.transb, m := p.m, n := p.n, k := p.k,
    alpha := p.alpha, a := p.a, lda := p.lda, b := p.b, ldb := p.ldb,
    beta := p.beta, c := p.c, ldc := p.ldc,
    duplicate_inputs_ := p.duplicate_inputs_ }

/-- The elementwise closeness predicate of `at::allclose(self, other, rtol,
atol)`, namely `|self - other| <= atol + rtol * |other|`; tolerances and
element values are exact rationals. -/
def isclose (rtol atol x y : ℚ) : Bool :=
  decide (|x - y| ≤ atol + rtol * |y|)

/-- `at::allclose(self, other, rtol, atol)` on two flat buffers: the shapes
(here: lengths) must agree and every element pair must be close. -/
def allcloseQ (self other : List ℚ) (rtol atol : ℚ) : Bool :=
  (self.length == other.length) && (List.zipWith (isclose rtol atol) self other).all id

/-- The tolerance ladder `{1e-1, 1e-2, 1e-3, 1e-4, 1e-5}` used for both
`atols` and `rtols`. -/
def tolLadder : List ℚ := [1/10, 1/100, 1/1000, 1/10000, 1/100000]

/-- The `(atol, rtol)` pairs in iteration order: `atol` outer, `rtol`
inner, each in the ladder's declared order. -/
def ladderPairs : List (ℚ × ℚ) :=
  tolLadder.flatMap (fun atol => tolLadder.map (fun rtol => (atol, rtol)))

/-- The nested tolerance sweep of `NumericalCheck`: starting from the
sentinel `(1, 1)`, record the `(atol, rtol)` of every pair whose
`allclose` succeeds, keeping the last. -/
def sweep (ref oth : List ℚ) : ℚ × ℚ :=
  tolLadder.foldl (fun acc atol =>
    tolLadder.foldl (fun acc2 rtol =>
      if allcloseQ ref oth rtol atol then (atol, rtol) else acc2) acc) (1, 1)

/-- `GemmParams::NumericalCheck`: view both output buffers as flat
`ldc*n`-element sequences (the receiver's `ldc` and `n` for both), sweep
the tolerance ladder, and FAIL exactly when the tracked `atol` is still the
sentinel `1`.  The tracked `(atol, rtol)` pair (logged by the source) is
returned alongside the status. -/
def GemmParams.NumericalCheck (h : Heap) (p other : GemmParams) :
    TuningStatus × ℚ × ℚ :=
  let ref := readBuf h p.c (p.ldc * p.n)
  let oth := readBuf h other.c (p.ldc * p.n)
  let last := sweep ref oth
  (if last.1 = 1 then TuningStatus.FAIL else TuningStatus.OK, last)

/-- `GemmStridedBatchedParams::NumericalCheck`: identical sweep, with both
buffers viewed as flat `batch*stride_c`-element sequences. -/
def GemmStridedBatchedParams.NumericalCheck (h : Heap)
    (p other : GemmStridedBatchedParams) : TuningStatus × ℚ × ℚ :=
  let ref := readBuf h p.c (p.batch * p.stride_c)
  let oth := readBuf h other.c (p.batch * p.stride_c)
  let last := sweep ref oth
  (if last.1 = 1 then TuningStatus.FAIL else TuningStatus.OK, last)

/-- Concrete heap used to instantiate witnesses: one allocated buffer at
address `0` holding two elements. -/
def sampleHeap : Heap :=
  { nextAddr := 1, mem := fun ad => if ad = 0 then [2, 3] else [], freed := fun _ => false }

/-- The spec's end-to-end dense scenario: `m=64, n=32, k=16, transa=N,
transb=N, lda=64, ldb=16, ldc=64`, buffers at address `0`. -/
def sampleDense : GemmParams :=
  GemmParams.init 'N' 'N' 64 32 16 1 0 64 0 16 0 0 64

/-- The spec's end-to-end batched scenario: the dense shape with
`batch = 4` and strides `stride_a = 1024, stride_b = 512, stride_c = 2048`. -/
def sampleBatched : GemmStridedBatchedParams :=
  GemmStridedBatchedParams.init 'N' 'N' 64 32 16 1 0 64 1024 0 16 512 0 0 64 2048 4

theorem digitsAux_decode : ∀ (fuel n : Nat), n ≤ fuel →
    ofDigitsLE (digitsAux fuel n) = n := by
  intro fuel
  induction fuel with
  | zero =>
    intro n hn
    interval_cases n
    rfl
  | succ f ih =>
    intro n hn
    match n with
    | 0 => rfl
    | m + 1 =>
      have hdiv : (m + 1) / 10 ≤ f := by
        have h1 : (m + 1) / 10 < m + 1 := Nat.div_lt_self (Nat.succ_pos m) (by norm_num)
        omega
      simp only [digitsAux, ofDigitsLE, ih _ hdiv]
      omega

theorem natDigits_decode (n : Nat) : ofDigitsLE (natDigits n) = n :=
  digitsAux_decode n n (Nat.le_refl n)

theorem natDigits_inj {a b : Nat} (h : natDigits a = natDigits b) : a = b := by
  have := natDigits_decode a
  rw [h, natDigits_decode] at this
  omega

theorem digitsAux_lt_ten : ∀ (fuel n d : Nat), d ∈ digitsAux fuel n → d < 10 := by
  intro fuel
  induction fuel with
  | zero =>
    intro n d hd
    match n with
    | 0 => simp [digitsAux] at hd
    | _ + 1 => simp [digitsAux] at hd
  | succ f ih =>
    intro n d hd
    match n with
    | 0 => simp [digitsAux] at hd
    | m + 1 =>
      simp only [digitsAux, List.mem_cons] at hd
      rcases hd with h | h
      · subst h
        exact Nat.mod_lt _ (by norm_num)
      · exact ih _ _ h

theorem charOfDigit_inj_lt : ∀ d e : Fin 10,
    charOfDigit d.val = charOfDigit e.val → d = e := by decide

theorem charOfDigit_ne_underscore : ∀ d : Fin 10, charOfDigit d.val ≠ '_' := by decide

theorem natRepr_no_underscore (n : Nat) : ∀ c ∈ natRepr n, c ≠ '_' := by
  intro c hc
  simp only [natRepr, List.mem_reverse, List.mem_map] at hc
  obtain ⟨d, hd, hcd⟩ := hc
  have hd10 : d < 10 := digitsAux_lt_ten n n d hd
  subst hcd
  exact charOfDigit_ne_underscore ⟨d, hd10⟩

theorem map_charOfDigit_inj : ∀ (l l' : List Nat),
    (∀ d ∈ l, d < 10) → (∀ d ∈ l', d < 10) →
    l.map charOfDigit = l'.map charOfDigit → l = l' := by
  intro l
  induction l with
  | nil =>
    intro l' _ _ h
    cases l' with
    | nil => rfl
    | cons x xs => simp at h
  | cons x xs ih =>
    intro l' hl hl' h
    cases l' with
    | nil => simp at h
    | cons y ys =>
      simp only [List.map_cons, List.cons.injEq] at h
      have hx : x < 10 := hl x (List.mem_cons_self x xs)
      have hy : y < 10 := hl' y (List.mem_cons_self y ys)
      have hxy : x = y := by
        have := charOfDigit_inj_lt ⟨x, hx⟩ ⟨y, hy⟩ h.1
        exact congrArg Fin.val this
      have hxs : xs = ys := ih ys (fun d hd => hl d (List.mem_cons_of_mem _ hd))
        (fun d hd => hl' d (List.mem_cons_of_mem _ hd)) h.2
      rw [hxy, hxs]

theorem natRepr_inj {a b : Nat} (h : natRepr a = natRepr b) : a = b := by
  apply natDigits_inj
  apply map_charOfDigit_inj (natDigits a) (natDigits b)
    (fun d hd => digitsAux_lt_ten a a d hd)
    (fun d hd => digitsAux_lt_ten b b d hd)
  have := congrArg List.reverse h
  simpa [natRepr] using this

/-- Splitting a character list at a separator is unambiguous when neither
prefix contains the separator. -/
theorem split_at_sep : ∀ (xs ys as bs : List Char),
    (∀ c ∈ xs, c ≠ '_') → (∀ c ∈ ys, c ≠ '_') →
    xs ++ '_' :: as = ys ++ '_' :: bs → xs = ys ∧ as = bs := by
  intro xs
  induction xs with
  | nil =>
    intro ys as bs _ hys h
    cases ys with
    | nil => simpa using h
    | cons y ts =>
      simp only [List.nil_append, List.cons_append, List.cons.injEq] at h
      exact absurd h.1.symm (hys y (List.mem_cons_self y ts))
  | cons x ts ih =>
    intro ys as bs hxs hys h
    cases ys with
    | nil =>
      simp only [List.nil_append, List.cons_append, List.cons.injEq] at h
      exact absurd h.1 (hxs x (List.mem_cons_self x ts))
    | cons y us =>
      simp only [List.cons_append, List.cons.injEq] at h
      obtain ⟨hts, has⟩ := ih us as bs
        (fun c hc => hxs c (List.mem_cons_of_mem _ hc))
        (fun c hc => hys c (List.mem_cons_of_mem _ hc)) h.2
      exact ⟨by rw [h.1, hts], has⟩

theorem getLastD_cons {α : Type} (x i : α) (t : List α) :
    ((x :: t).getLast?).getD i = (t.getLast?).getD x := by
  cases t with
  | nil => rfl
  | cons y ys => rw [List.getLast?_cons_cons]; rfl

/-- A fold that overwrites its accumulator with every element satisfying
`P` ends at the last such element (or at `init` when there is none). -/
theorem foldl_pick_last {α : Type} (P : α → Bool) :
    ∀ (l : List α) (init : α),
      l.foldl (fun acc x => if P x then x else acc) init
        = ((l.filter P).getLast?).getD init := by
  intro l
  induction l with
  | nil => intro init; rfl
  | cons x xs ih =>
    intro init
    by_cases hx : P x = true
    · simp only [List.foldl_cons, hx, if_pos, List.filter_cons_of_pos hx]
      rw [ih x, getLastD_cons]
    · have hx' : P x = false := by simpa using hx
      simp only [List.foldl_cons, hx', if_neg, Bool.false_eq_true,
        not_false_iff, List.filter_cons_of_neg]
      · exact ih init

/-- The nested sweep is the flat fold over `ladderPairs`. -/
theorem sweep_eq_flat (ref oth : List ℚ) :
    sweep ref oth = ladderPairs.foldl
      (fun acc x => if allcloseQ ref oth x.2 x.1 then x else acc) (1, 1) := rfl

/-- The sweep lands on the last passing pair in iteration order. -/
theorem sweep_eq_filter_getLast (ref oth : List ℚ) :
    sweep ref oth
      = ((ladderPairs.filter (fun x => allcloseQ ref oth x.2 x.1)).getLast?).getD (1, 1) := by
  rw [sweep_eq_flat]
  exact foldl_pick_last _ ladderPairs (1, 1)

theorem one_not_mem_tolLadder : (1 : ℚ) ∉ tolLadder := by
  simp only [tolLadder, List.mem_cons, List.not_mem_nil, or_false]
  norm_num

theorem mem_ladderPairs_iff (x : ℚ × ℚ) :
    x ∈ ladderPairs ↔ x.1 ∈ tolLadder ∧ x.2 ∈ tolLadder := by
  constructor
  · intro hx
    simp only [ladderPairs, List.mem_flatMap, List.mem_map] at hx
    obtain ⟨a, ha, r, hr, hxr⟩ := hx
    subst hxr
    exact ⟨ha, hr⟩
  · rintro ⟨h1, h2⟩
    simp only [ladderPairs, List.mem_flatMap, List.mem_map]
    exact ⟨x.1, h1, x.2, h2, rfl⟩

theorem mem_zip_same : ∀ (l : List ℚ) (pr : ℚ × ℚ), pr ∈ List.zip l l → pr.1 = pr.2 := by
  intro l
  induction l with
  | nil => intro pr hpr; simp at hpr
  | cons x xs ih =>
    intro pr hpr
    rw [List.zip_cons_cons, List.mem_cons] at hpr
    rcases hpr with h | h
    · rw [h]
    · exact ih pr h

theorem zipWith_isclose_all : ∀ (a b : List ℚ) (rtol atol : ℚ),
    ((List.zipWith (isclose rtol atol) a b).all id = true) ↔
      ∀ pr ∈ List.zip a b, |pr.1 - pr.2| ≤ atol + rtol * |pr.2| := by
  intro a
  induction a with
  | nil => intro b rtol atol; cases b <;> simp
  | cons x xs ih =>
    intro b rtol atol
    cases b with
    | nil => simp
    | cons y ys =>
      simp only [List.zipWith_cons_cons, List.all_cons, Bool.and_eq_true, id_eq,
        List.zip_cons_cons, List.mem_cons, forall_eq_or_imp, isclose, decide_eq_true_eq]
      rw [ih]

/-- Characterization of `allcloseQ`: equal lengths and the elementwise
bound `|self_i - other_i| <= atol + rtol * |other_i|`. -/
theorem allcloseQ_iff (self other : List ℚ) (rtol atol : ℚ) :
    allcloseQ self other rtol atol = true ↔
      (self.length = other.length ∧
        ∀ pr ∈ List.zip self other, |pr.1 - pr.2| ≤ atol + rtol * |pr.2|) := by
  simp only [allcloseQ, Bool.and_eq_true, beq_iff_eq]
  rw [zipWith_isclose_all]

/-- Two identical buffers are allclose at any positive tolerances. -/
theorem allcloseQ_self (l : List ℚ) (rtol atol : ℚ) (hr : 0 ≤ rtol) (ha : 0 < atol) :
    allcloseQ l l rtol atol = true := by
  rw [allcloseQ_iff]
  refine ⟨rfl, ?_⟩
  intro pr hpr
  have hdiag : pr.1 = pr.2 := mem_zip_same l pr hpr
  rw [hdiag, sub_self, abs_zero]
  have hmul : 0 ≤ rtol * |pr.2| := mul_nonneg hr (abs_nonneg _)
  linarith

theorem tolLadder_pos : ∀ q ∈ tolLadder, (0 : ℚ) < q := by
  intro q hq
  fin_cases hq <;> norm_num

theorem tolLadder_ne_one : ∀ q ∈ tolLadder, q ≠ 1 := by
  intro q hq
  fin_cases hq <;> norm_num

theorem sweep_mem_filter_of_ne_nil (ref oth : List ℚ)
    (hne : ladderPairs.filter (fun z => allcloseQ ref oth z.2 z.1) ≠ []) :
    sweep ref oth ∈ ladderPairs.filter (fun z => allcloseQ ref oth z.2 z.1) := by
  rw [sweep_eq_filter_getLast, List.getLast?_eq_getLast _ hne, Option.getD_some]
  exact List.getLast_mem hne

/-- The tracked `atol` is still the sentinel `1` exactly when no ladder
pair passed. -/
theorem sweep_sentinel_iff (ref oth : List ℚ) :
    (sweep ref oth).1 = 1 ↔ ∀ x ∈ ladderPairs, allcloseQ ref oth x.2 x.1 = false := by
  constructor
  · intro hs x hx
    by_contra hpass
    have hpass' : allcloseQ ref oth x.2 x.1 = true := by
      simpa using hpass
    have hmem : x ∈ ladderPairs.filter (fun z => allcloseQ ref oth z.2 z.1) :=
      List.mem_filter.mpr ⟨hx, hpass'⟩
    have hsw := sweep_mem_filter_of_ne_nil ref oth (List.ne_nil_of_mem hmem)
    have hlp := (mem_ladderPairs_iff _).mp (List.mem_filter.mp hsw).1
    exact tolLadder_ne_one _ hlp.1 hs
  · intro hall
    rw [sweep_eq_filter_getLast]
    have hnil : ladderPairs.filter (fun z => allcloseQ ref oth z.2 z.1) = [] :=
      List.filter_eq_nil_iff.mpr (fun a ha => by simp [hall a ha])
    rw [hnil]
    rfl

/-- When every ladder pair passes, the sweep ends at the final, tightest
pair `(1e-5, 1e-5)`. -/
theorem sweep_all_pass (ref oth : List ℚ)
    (hall : ∀ x ∈ ladderPairs, allcloseQ ref oth x.2 x.1 = true) :
    sweep ref oth = (1/100000, 1/100000) := by
  rw [sweep_eq_filter_getLast, List.filter_eq_self.mpr hall]
  rfl

theorem check_FAIL_iff (ref oth : List ℚ) :
    ((if (sweep ref oth).1 = 1 then TuningStatus.FAIL else TuningStatus.OK)
        = TuningStatus.FAIL)
      ↔ ∀ atol ∈ tolLadder, ∀ rtol ∈ tolLadder, allcloseQ ref oth rtol atol = false := by
  by_cases hs : (sweep ref oth).1 = 1
  · rw [if_pos hs]
    simp only [true_iff]
    intro atol ha rtol hr
    exact (sweep_sentinel_iff ref oth).mp hs (atol, rtol)
      ((mem_ladderPairs_iff (atol, rtol)).mpr ⟨ha, hr⟩)
  · rw [if_neg hs]
    constructor
    · intro hOF
      exact absurd hOF (by simp)
    · intro hall
      exact absurd ((sweep_sentinel_iff ref oth).mpr
        (fun x hx => hall x.1 ((mem_ladderPairs_iff x).mp hx).1
          x.2 ((mem_ladderPairs_iff x).mp hx).2)) hs

theorem check_OK_last (ref oth : List ℚ)
    (hOK : (if (sweep ref oth).1 = 1 then TuningStatus.FAIL else TuningStatus.OK)
        = TuningStatus.OK) :
    (ladderPairs.filter (fun x => allcloseQ ref oth x.2 x.1)).getLast?
        = some (sweep ref oth) ∧
      (sweep ref oth).1 ∈ tolLadder ∧ (sweep ref oth).2 ∈ tolLadder ∧
      sweep ref oth ≠ (1, 1) := by
  have hne1 : (sweep ref oth).1 ≠ 1 := by
    intro hs
    rw [if_pos hs] at hOK
    exact absurd hOK (by simp)
  have hnil : ladderPairs.filter (fun x => allcloseQ ref oth x.2 x.1) ≠ [] := by
    intro hn
    apply hne1
    apply (sweep_sentinel_iff ref oth).mpr
    intro x hx
    have := List.filter_eq_nil_iff.mp hn x hx
    simpa using this
  have hsw := sweep_mem_filter_of_ne_nil ref oth hnil
  have hlp := (mem_ladderPairs_iff _).mp (List.mem_filter.mp hsw).1
  refine ⟨?_, hlp.1, hlp.2, ?_⟩
  · rw [sweep_eq_filter_getLast, List.getLast?_eq_getLast _ hnil, Option.getD_some]
  · intro h11
    rw [h11] at hne1
    exact hne1 rfl

theorem denseNumericalCheck_eq (h : Heap) (p q : GemmParams) :
    GemmParams.NumericalCheck h p q
      = (if (sweep (readBuf h p.c (p.ldc * p.n)) (readBuf h q.c (p.ldc * p.n))).1 = 1
            then TuningStatus.FAIL else TuningStatus.OK,
          sweep (readBuf h p.c (p.ldc * p.n)) (readBuf h q.c (p.ldc * p.n))) := rfl

theorem batchedNumericalCheck_eq (h : Heap)
    (p q : GemmStridedBatchedParams) :
    GemmStridedBatchedParams.NumericalCheck h p q
      = (if (sweep (readBuf h p.c (p.batch * p.stride_c))
              (readBuf h q.c (p.batch * p.stride_c))).1 = 1
            then TuningStatus.FAIL else TuningStatus.OK,
          sweep (readBuf h p.c (p.batch * p.stride_c))
            (readBuf h q.c (p.batch * p.stride_c))) := rfl

/-- C4: the dense `Signature()` is the concatenation `transa transb _ m _ n
_ k` (e.g. `"NN_64_32_16"` for the spec's scenario); it is determined by
exactly the fields `transa, transb, m, n, k` — identical whenever those
five agree (whatever alpha, beta, buffer addresses or leading strides do),
and different whenever any of the five differ. -/
theorem claim_C4 :
    (∀ p q : GemmParams,
      GemmParams.Signature p = GemmParams.Signature q ↔
        (p.transa = q.transa ∧ p.transb = q.transb ∧ p.m = q.m ∧ p.n = q.n ∧
          p.k = q.k)) ∧
    GemmParams.Signature sampleDense = "NN_64_32_16" := by
  constructor
  · intro p q
    constructor
    · intro hsig
      have hdata : ([p.transa, p.transb] ++ '_' :: natRepr p.m ++ '_' :: natRepr p.n
            ++ '_' :: natRepr p.k)
          = ([q.transa, q.transb] ++ '_' :: natRepr q.m ++ '_' :: natRepr q.n
            ++ '_' :: natRepr q.k) := congrArg String.data hsig
      simp only [List.append_assoc, List.cons_append, List.nil_append,
        List.cons.injEq] at hdata
      obtain ⟨hta, htb, -, htail⟩ := hdata
      obtain ⟨hm, htail2⟩ := split_at_sep _ _ _ _
        (natRepr_no_underscore p.m) (natRepr_no_underscore q.m) htail
      obtain ⟨hn, hk⟩ := split_at_sep _ _ _ _
        (natRepr_no_underscore p.n) (natRepr_no_underscore q.n) htail2
      exact ⟨hta, htb, natRepr_inj hm, natRepr_inj hn, natRepr_inj hk⟩
    · rintro ⟨hta, htb, hm, hn, hk⟩
      simp only [GemmParams.Signature, hta, htb, hm, hn, hk]
  · rfl

/-- C5: the batched `Signature()` is the dense signature of the same
`transa, transb, m, n, k` followed by `"_B_"` and the batch count (the
spec's scenario gives `"NN_64_32_16_B_4"`); it never coincides with the
dense signature of the same shape (in particular whenever `batch ≠ 1`),
and with all other fields fixed it changes exactly when `batch` changes. -/
theorem claim_C5 (p q : GemmStridedBatchedParams)
    (hta : p.transa = q.transa) (htb : p.transb = q.transb)
    (hm : p.m = q.m) (hn : p.n = q.n) (hk : p.k = q.k) :
    (GemmStridedBatchedParams.Signature p).data
        = (GemmParams.Signature p.toDense).data ++ '_' :: 'B' :: '_' :: natRepr p.batch ∧
    (p.batch ≠ 1 →
      GemmStridedBatchedParams.Signature p ≠ GemmParams.Signature p.toDense) ∧
    (GemmStridedBatchedParams.Signature p = GemmStridedBatchedParams.Signature q ↔
      p.batch = q.batch) ∧
    GemmStridedBatchedParams.Signature sampleBatched = "NN_64_32_16_B_4" := by
  refine ⟨?_, ?_, ?_, rfl⟩
  · simp [GemmStridedBatchedParams.Signature, GemmParams.Signature,
      GemmStridedBatchedParams.toDense]
  · intro _ heq
    have hlen := congrArg (fun s => s.data.length) heq
    simp only [GemmStridedBatchedParams.Signature, GemmParams.Signature,
      GemmStridedBatchedParams.toDense, List.cons_append, List.nil_append,
      List.length_cons, List.length_append] at hlen
    omega
  · constructor
    · intro hsig
      have hdata := congrArg String.data hsig
      simp only [GemmStridedBatchedParams.Signature, hta, htb, hm, hn, hk] at hdata
      have hsuffix := List.append_cancel_left hdata
      have : natRepr p.batch = natRepr q.batch := by
        simpa using hsuffix
      exact natRepr_inj this
    · intro hb
      simp only [GemmStridedBatchedParams.Signature, hta, htb, hm, hn, hk, hb]

/-- C5 witness: the spec's batched scenario instantiates the claim; its
signature is `"NN_64_32_16_B_4"` and differs from the dense
`"NN_64_32_16"`. -/
theorem claim_C5_witness :
    GemmStridedBatchedParams.Signature sampleBatched
        ≠ GemmParams.Signature sampleBatched.toDense ∧
    GemmStridedBatchedParams.Signature sampleBatched = "NN_64_32_16_B_4" :=
  ⟨(claim_C5 sampleBatched sampleBatched rfl rfl rfl rfl rfl).2.1 (by decide),
   (claim_C5 sampleBatched sampleBatched rfl rfl rfl rfl rfl).2.2.2⟩

/-- C6: the dense byte extents — `GetSizeA = sizeofT*lda*k` when `transa`
matches a no-transpose marker (`'n'` or `'N'`) and `sizeofT*lda*m`
otherwise (any non-marker character degrades to transpose semantics);
`GetSizeB = sizeofT*ldb*n` resp. `sizeofT*ldb*k`; `GetSizeC =
sizeofT*ldc*n`; and `GetSize(dup)` is `GetSizeC` alone for `dup = false`
and `GetSizeA + GetSizeB + GetSizeC` for `dup = true`. -/
theorem claim_C6 (sizeofT : Nat) (p : GemmParams) :
    (p.transa = 'n' ∨ p.transa = 'N' →
      GemmParams.GetSizeA sizeofT p = sizeofT * p.lda * p.k) ∧
    (¬(p.transa = 'n' ∨ p.transa = 'N') →
      GemmParams.GetSizeA sizeofT p = sizeofT * p.lda * p.m) ∧
    (p.transb = 'n' ∨ p.transb = 'N' →
      GemmParams.GetSizeB sizeofT p = sizeofT * p.ldb * p.n) ∧
    (¬(p.transb = 'n' ∨ p.transb = 'N') →
      GemmParams.GetSizeB sizeofT p = sizeofT * p.ldb * p.k) ∧
    GemmParams.GetSizeC sizeofT p = sizeofT * p.ldc * p.n ∧
    GemmParams.GetSize sizeofT p false = GemmParams.GetSizeC sizeofT p ∧
    GemmParams.GetSize sizeofT p true
      = GemmParams.GetSizeA sizeofT p + GemmParams.GetSizeB sizeofT p
        + GemmParams.GetSizeC sizeofT p := by
  refine ⟨?_, ?_, ?_, ?_, rfl, rfl, ?_⟩
  · intro hN
    simp [GemmParams.GetSizeA, hN]
  · intro hT
    simp [GemmParams.GetSizeA, hT]
  · intro hN
    simp [GemmParams.GetSizeB, hN]
  · intro hT
    simp [GemmParams.GetSizeB, hT]
  · simp only [GemmParams.GetSize, if_pos]
    ring

/-- C6 witness: the spec's dense scenario with 4-byte elements has
`GetSizeA = 4*64*16` (no-transpose reads `k`), and flipping `transa` to
`'T'` degrades to transpose semantics, reading `m`: `4*64*64`. -/
theorem claim_C6_witness :
    GemmParams.GetSizeA 4 sampleDense = 4 * 64 * 16 ∧
    GemmParams.GetSizeA 4 { sampleDense with transa := 'T' } = 4 * 64 * 64 :=
  ⟨(claim_C6 4 sampleDense).1 (Or.inr rfl),
   (claim_C6 4 { sampleDense with transa := 'T' }).2.1 (by decide)⟩

/-- C7: each batched byte extent is exactly `batch` times the dense extent
computed from the same `transa, transb, m, n, k, lda, ldb, ldc`; in
particular the batched formulas reduce to the dense ones at `batch = 1`. -/
theorem claim_C7 (sizeofT : Nat) (p : GemmStridedBatchedParams) :
    GemmStridedBatchedParams.GetSizeA sizeofT p
        = p.batch * GemmParams.GetSizeA sizeofT p.toDense ∧
    GemmStridedBatchedParams.GetSizeB sizeofT p
        = p.batch * GemmParams.GetSizeB sizeofT p.toDense ∧
    GemmStridedBatchedParams.GetSizeC sizeofT p
        = p.batch * GemmParams.GetSizeC sizeofT p.toDense ∧
    (p.batch = 1 →
      GemmStridedBatchedParams.GetSizeA sizeofT p = GemmParams.GetSizeA sizeofT p.toDense ∧
      GemmStridedBatchedParams.GetSizeB sizeofT p = GemmParams.GetSizeB sizeofT p.toDense ∧
      GemmStridedBatchedParams.GetSizeC sizeofT p = GemmParams.GetSizeC sizeofT p.toDense) := by
  have hA : GemmStridedBatchedParams.GetSizeA sizeofT p
      = p.batch * GemmParams.GetSizeA sizeofT p.toDense := by
    simp only [GemmStridedBatchedParams.GetSizeA, GemmParams.GetSizeA,
      GemmStridedBatchedParams.toDense]
    ring
  have hB : GemmStridedBatchedParams.GetSizeB sizeofT p
      = p.batch * GemmParams.GetSizeB sizeofT p.toDense := by
    simp only [GemmStridedBatchedParams.GetSizeB, GemmParams.GetSizeB,
      GemmStridedBatchedParams.toDense]
    ring
  have hC : GemmStridedBatchedParams.GetSizeC sizeofT p
      = p.batch * GemmParams.GetSizeC sizeofT p.toDense := by
    simp only [GemmStridedBatchedParams.GetSizeC, GemmParams.GetSizeC,
      GemmStridedBatchedParams.toDense]
    ring
  refine ⟨hA, hB, hC, ?_⟩
  intro h1
  rw [hA, hB, hC, h1]
  simp

/-- C7 witness: the spec's batched scenario (`batch = 4`, 4-byte elements)
has extents exactly `4×` the dense ones, and at `batch = 1` they coincide. -/
theorem claim_C7_witness :
    GemmStridedBatchedParams.GetSizeA 4 sampleBatched
        = 4 * GemmParams.GetSizeA 4 sampleBatched.toDense ∧
    GemmStridedBatchedParams.GetSizeC 4 { sampleBatched with batch := 1 }
        = GemmParams.GetSizeC 4 ({ sampleBatched with batch := 1 }).toDense :=
  ⟨(claim_C7 4 sampleBatched).1,
   ((claim_C7 4 { sampleBatched with batch := 1 }).2.2.2 rfl).2.2⟩

/-- C1 (amended): `*copy = *this` copies the private flag before the
duplicate branch may set it, so the copy's `duplicate_inputs_` is the OR of
the receiver's flag and the request: `DeepCopy(true)` always marks the copy
as owning its inputs, while `DeepCopy(false)` preserves the receiver's flag
— `false` for a receiver that borrows its inputs, but `true` when the
receiver was itself produced by `DeepCopy(true)`. -/
theorem claim_C1_amended :
    (∀ (p : GemmParams) (d : Bool) (h : Heap),
      (GemmParams.DeepCopy p d h).1.duplicate_inputs_ = (p.duplicate_inputs_ || d)) ∧
    (∀ (p : GemmStridedBatchedParams) (d : Bool) (h : Heap),
      (GemmStridedBatchedParams.DeepCopy p d h).1.duplicate_inputs_
        = (p.duplicate_inputs_ || d)) := by
  constructor
  · intro p d h
    cases d
    · simp [GemmParams.DeepCopy]
    · simp [GemmParams.DeepCopy]
  · intro p d h
    cases d
    · simp [GemmStridedBatchedParams.DeepCopy]
    · simp [GemmStridedBatchedParams.DeepCopy]

/-- C1 counterexample: take the deep copy of the sample dense descriptor
with input duplication (its flag is `true`), then `DeepCopy(false)` of it.
The claim predicts a copy that does not own its inputs (`flag = false`);
the code copies the receiver's flag, so it is `true`. -/
theorem claim_C1_counterexample :
    ¬ ((GemmParams.DeepCopy (GemmParams.DeepCopy sampleDense true sampleHeap).1 false
          (GemmParams.DeepCopy sampleDense true sampleHeap).2).1.duplicate_inputs_
        = false) := by
  decide

theorem denseDeepCopy_heap_mem (p : GemmParams) (d : Bool) (h : Heap) (ad : Nat) :
    (GemmParams.DeepCopy p d h).2.mem ad
      = if ad = h.nextAddr then (h.mem p.c).take (p.ldc * p.n) else h.mem ad := by
  cases d <;> rfl

theorem denseDeepCopy_heap_freed (p : GemmParams) (d : Bool) (h : Heap) :
    (GemmParams.DeepCopy p d h).2.freed = h.freed := by
  cases d <;> rfl

theorem batchedDeepCopy_heap_mem (p : GemmStridedBatchedParams)
    (d : Bool) (h : Heap) (ad : Nat) :
    (GemmStridedBatchedParams.DeepCopy p d h).2.mem ad
      = if ad = h.nextAddr then (h.mem p.c).take (p.ldc * p.n * p.batch)
        else h.mem ad := by
  cases d <;> rfl

theorem batchedDeepCopy_heap_freed (p : GemmStridedBatchedParams)
    (d : Bool) (h : Heap) :
    (GemmStridedBatchedParams.DeepCopy p d h).2.freed = h.freed := by
  cases d <;> rfl

/-- C8: `DeepCopy` leaves every previously allocated buffer's contents (in
particular the receiver's borrowed `a`, `b`, `c` buffers) and the freed-set
untouched — only the fresh address `h.nextAddr` is written; the copy's
scalar and shape fields equal the receiver's; and the copy's output buffer
is the fresh allocation, seeded with the receiver's output contents
(`GetSizeC()` bytes, i.e. `ldc*n` resp. `ldc*n*batch` elements, moved by
the stream-ordered copy). -/
theorem claim_C8 :
    (∀ (p : GemmParams) (d : Bool) (h : Heap),
      ((GemmParams.DeepCopy p d h).1.transa = p.transa ∧
        (GemmParams.DeepCopy p d h).1.transb = p.transb ∧
        (GemmParams.DeepCopy p d h).1.m = p.m ∧
        (GemmParams.DeepCopy p d h).1.n = p.n ∧
        (GemmParams.DeepCopy p d h).1.k = p.k ∧
        (GemmParams.DeepCopy p d h).1.alpha = p.alpha ∧
        (GemmParams.DeepCopy p d h).1.beta = p.beta ∧
        (GemmParams.DeepCopy p d h).1.lda = p.lda ∧
        (GemmParams.DeepCopy p d h).1.ldb = p.ldb ∧
        (GemmParams.DeepCopy p d h).1.ldc = p.ldc) ∧
      (GemmParams.DeepCopy p d h).1.c = h.nextAddr ∧
      (GemmParams.DeepCopy p d h).2.mem h.nextAddr
        = (h.mem p.c).take (p.ldc * p.n) ∧
      (∀ ad, ad ≠ h.nextAddr → (GemmParams.DeepCopy p d h).2.mem ad = h.mem ad) ∧
      (∀ ad, (GemmParams.DeepCopy p d h).2.freed ad = h.freed ad)) ∧
    (∀ (p : GemmStridedBatchedParams) (d : Bool) (h : Heap),
      ((GemmStridedBatchedParams.DeepCopy p d h).1.transa = p.transa ∧
        (GemmStridedBatchedParams.DeepCopy p d h).1.transb = p.transb ∧
        (GemmStridedBatchedParams.DeepCopy p d h).1.m = p.m ∧
        (GemmStridedBatchedParams.DeepCopy p d h).1.n = p.n ∧
        (GemmStridedBatchedParams.DeepCopy p d h).1.k = p.k ∧
        (GemmStridedBatchedParams.DeepCopy p d h).1.alpha = p.alpha ∧
        (GemmStridedBatchedParams.DeepCopy p d h).1.beta = p.beta ∧
        (GemmStridedBatchedParams.DeepCopy p d h).1.lda = p.lda ∧
        (GemmStridedBatchedParams.DeepCopy p d h).1.ldb = p.ldb ∧
        (GemmStridedBatchedParams.DeepCopy p d h).1.ldc = p.ldc ∧
        (GemmStridedBatchedParams.DeepCopy p d h).1.stride_a = p.stride_a ∧
        (GemmStridedBatchedParams.DeepCopy p d h).1.stride_b = p.stride_b ∧
        (GemmStridedBatchedParams.DeepCopy p d h).1.stride_c = p.stride_c ∧
        (GemmStridedBatchedParams.DeepCopy p d h).1.batch = p.batch) ∧
      (GemmStridedBatchedParams.DeepCopy p d h).1.c = h.nextAddr ∧
      (GemmStridedBatchedParams.DeepCopy p d h).2.mem h.nextAddr
        = (h.mem p.c).take (p.ldc * p.n * p.batch) ∧
      (∀ ad, ad ≠ h.nextAddr →
        (GemmStridedBatchedParams.DeepCopy p d h).2.mem ad = h.mem ad) ∧
      (∀ ad, (GemmStridedBatchedParams.DeepCopy p d h).2.freed ad = h.freed ad)) := by
  constructor
  · intro p d h
    refine ⟨?_, ?_, ?_, ?_, ?_⟩
    · cases d <;> exact ⟨rfl, rfl, rfl, rfl, rfl, rfl, rfl, rfl, rfl, rfl⟩
    · cases d <;> rfl
    · rw [denseDeepCopy_heap_mem, if_pos rfl]
    · intro ad had
      rw [denseDeepCopy_heap_mem, if_neg had]
    · intro ad
      rw [denseDeepCopy_heap_freed]
  · intro p d h
    refine ⟨?_, ?_, ?_, ?_, ?_⟩
    · cases d <;>
        exact ⟨rfl, rfl, rfl, rfl, rfl, rfl, rfl, rfl, rfl, rfl, rfl, rfl, rfl, rfl⟩
    · cases d <;> rfl
    · rw [batchedDeepCopy_heap_mem, if_pos rfl]
    · intro ad had
      rw [batchedDeepCopy_heap_mem, if_neg had]
    · intro ad
      rw [batchedDeepCopy_heap_freed]

/-- C8 witness: for the sample descriptor and heap, the borrowed buffer at
address `0` is unchanged by `DeepCopy(true)`, and the copy keeps the
receiver's `m`. -/
theorem claim_C8_witness :
    (GemmParams.DeepCopy sampleDense true sampleHeap).2.mem 0 = sampleHeap.mem 0 ∧
    (GemmParams.DeepCopy sampleDense true sampleHeap).1.m = sampleDense.m :=
  ⟨(claim_C8.1 sampleDense true sampleHeap).2.2.2.1 0 (by decide),
   (claim_C8.1 sampleDense true sampleHeap).1.2.2.1⟩

/-- C9: `DeepCopy(false)` seeds the copy's output buffer with the
receiver's output contents, so an immediate `NumericalCheck(original,
copy)` (no intervening writes) compares two identical element sequences:
it returns OK and the tracked pair is the tightest ladder entry
`(1e-5, 1e-5)`. -/
theorem claim_C9 (p : GemmParams) (h : Heap) (hc : p.c < h.nextAddr) :
    GemmParams.NumericalCheck (GemmParams.DeepCopy p false h).2 p
        (GemmParams.DeepCopy p false h).1
      = (TuningStatus.OK, 1/100000, 1/100000) := by
  have href : readBuf (GemmParams.DeepCopy p false h).2 p.c (p.ldc * p.n)
      = (h.mem p.c).take (p.ldc * p.n) := by
    unfold readBuf
    rw [denseDeepCopy_heap_mem, if_neg (Nat.ne_of_lt hc)]
  have hoth : readBuf (GemmParams.DeepCopy p false h).2
        (GemmParams.DeepCopy p false h).1.c (p.ldc * p.n)
      = (h.mem p.c).take (p.ldc * p.n) := by
    have hcopy_c : (GemmParams.DeepCopy p false h).1.c = h.nextAddr := rfl
    unfold readBuf
    rw [hcopy_c, denseDeepCopy_heap_mem, if_pos rfl, List.take_take, min_self]
  rw [denseNumericalCheck_eq, href, hoth]
  have hs : sweep ((h.mem p.c).take (p.ldc * p.n)) ((h.mem p.c).take (p.ldc * p.n))
      = (1/100000, 1/100000) := by
    apply sweep_all_pass
    intro x hx
    have hlp := (mem_ladderPairs_iff x).mp hx
    exact allcloseQ_self _ _ _ (le_of_lt (tolLadder_pos _ hlp.2)) (tolLadder_pos _ hlp.1)
  rw [hs, if_neg (by norm_num)]

/-- C9 witness: the sample descriptor (output buffer at address `0`, two
elements) checks OK at `(1e-5, 1e-5)` against its own fresh deep copy. -/
theorem claim_C9_witness :
    GemmParams.NumericalCheck (GemmParams.DeepCopy sampleDense false sampleHeap).2
        sampleDense (GemmParams.DeepCopy sampleDense false sampleHeap).1
      = (TuningStatus.OK, 1/100000, 1/100000) :=
  claim_C9 sampleDense sampleHeap (by decide)

/-- C2: for either variant, `NumericalCheck` returns FAIL exactly when no
`(atol, rtol)` pair from the 5×5 ladder makes the two result buffers
allclose; on OK the tracked pair is the last passing pair in iteration
order (`atol` outer, `rtol` inner, ladder order), both components are
ladder entries, and the sentinel `(1, 1)` — distinct from every ladder
entry and every ladder pair — is never the reported pair. -/
theorem claim_C2 :
    (∀ (h : Heap) (p q : GemmParams),
      ((GemmParams.NumericalCheck h p q).1 = TuningStatus.FAIL ↔
        ∀ atol ∈ tolLadder, ∀ rtol ∈ tolLadder,
          allcloseQ (readBuf h p.c (p.ldc * p.n)) (readBuf h q.c (p.ldc * p.n))
            rtol atol = false) ∧
      ((GemmParams.NumericalCheck h p q).1 = TuningStatus.OK →
        (ladderPairs.filter (fun x =>
              allcloseQ (readBuf h p.c (p.ldc * p.n)) (readBuf h q.c (p.ldc * p.n))
                x.2 x.1)).getLast?
            = some (GemmParams.NumericalCheck h p q).2 ∧
          (GemmParams.NumericalCheck h p q).2.1 ∈ tolLadder ∧
          (GemmParams.NumericalCheck h p q).2.2 ∈ tolLadder ∧
          (GemmParams.NumericalCheck h p q).2 ≠ (1, 1))) ∧
    (∀ (h : Heap) (p q : GemmStridedBatchedParams),
      ((GemmStridedBatchedParams.NumericalCheck h p q).1 = TuningStatus.FAIL ↔
        ∀ atol ∈ tolLadder, ∀ rtol ∈ tolLadder,
          allcloseQ (readBuf h p.c (p.batch * p.stride_c))
            (readBuf h q.c (p.batch * p.stride_c)) rtol atol = false) ∧
      ((GemmStridedBatchedParams.NumericalCheck h p q).1 = TuningStatus.OK →
        (ladderPairs.filter (fun x =>
              allcloseQ (readBuf h p.c (p.batch * p.stride_c))
                (readBuf h q.c (p.batch * p.stride_c)) x.2 x.1)).getLast?
            = some (GemmStridedBatchedParams.NumericalCheck h p q).2 ∧
          (GemmStridedBatchedParams.NumericalCheck h p q).2.1 ∈ tolLadder ∧
          (GemmStridedBatchedParams.NumericalCheck h p q).2.2 ∈ tolLadder ∧
          (GemmStridedBatchedParams.NumericalCheck h p q).2 ≠ (1, 1))) ∧
    (1 : ℚ) ∉ tolLadder ∧
    ((1 : ℚ), (1 : ℚ)) ∉ ladderPairs := by
  refine ⟨fun h p q => ?_, fun h p q => ?_, one_not_mem_tolLadder, fun hm =>
    one_not_mem_tolLadder ((mem_ladderPairs_iff _).mp hm).1⟩
  · rw [denseNumericalCheck_eq]
    exact ⟨check_FAIL_iff _ _, fun hOK => check_OK_last _ _ hOK⟩
  · rw [batchedNumericalCheck_eq]
    exact ⟨check_FAIL_iff _ _, fun hOK => check_OK_last _ _ hOK⟩

/-- C2 witness: the sample descriptor against itself (identical buffers)
returns OK, and the tracked pair is the last passing ladder pair. -/
theorem claim_C2_witness :
    (ladderPairs.filter (fun x =>
        allcloseQ (readBuf sampleHeap sampleDense.c (sampleDense.ldc * sampleDense.n))
          (readBuf sampleHeap sampleDense.c (sampleDense.ldc * sampleDense.n))
          x.2 x.1)).getLast?
      = some (GemmParams.NumericalCheck sampleHeap sampleDense sampleDense).2 :=
  ((claim_C2.1 sampleHeap sampleDense sampleDense).2 (by
    rw [denseNumericalCheck_eq]
    have hs : sweep (readBuf sampleHeap sampleDense.c (sampleDense.ldc * sampleDense.n))
        (readBuf sampleHeap sampleDense.c (sampleDense.ldc * sampleDense.n))
        = (1/100000, 1/100000) := by
      apply sweep_all_pass
      intro x hx
      have hlp := (mem_ladderPairs_iff x).mp hx
      exact allcloseQ_self _ _ _ (le_of_lt (tolLadder_pos _ hlp.2)) (tolLadder_pos _ hlp.1)
    rw [hs, if_neg (by norm_num)])).1

/-- C3 counterexample: single-element buffers `ref = [3]`, `oth = [2.6]` at
`atol = rtol = 0.1`.  The claim's predicate, with the relative term
`rtol*|r|` on the reference element, holds (`0.4 ≤ 0.1 + 0.1*3 = 0.4`),
but the code's `at::allclose` uses `rtol*|c|` on the candidate element and
fails (`0.4 > 0.1 + 0.1*2.6 = 0.36`), so the claimed equivalence is false
at this input. -/
theorem claim_C3_counterexample :
    ¬ (allcloseQ [3] [26/10] (1/10) (1/10) = true ↔
        ∀ pr ∈ List.zip ([3] : List ℚ) [26/10],
          |pr.1 - pr.2| ≤ 1/10 + 1/10 * |pr.1|) := by
  intro hiff
  have hspec : ∀ pr ∈ List.zip ([3] : List ℚ) [26/10],
      |pr.1 - pr.2| ≤ 1/10 + 1/10 * |pr.1| := by
    intro pr hpr
    simp only [List.zip_cons_cons, List.zip_nil_right, List.mem_singleton] at hpr
    subst hpr
    rw [show (3 : ℚ) - 26/10 = 4/10 by norm_num, abs_of_nonneg (by norm_num : (0:ℚ) ≤ 4/10),
      abs_of_nonneg (by norm_num : (0:ℚ) ≤ 3)]
    norm_num
  have hcode := hiff.mpr hspec
  rw [allcloseQ_iff] at hcode
  have hpair := hcode.2 (3, 26/10) (by simp)
  simp only at hpair
  rw [show (3 : ℚ) - 26/10 = 4/10 by norm_num,
    abs_of_nonneg (by norm_num : (0:ℚ) ≤ 4/10),
    abs_of_nonneg (by norm_num : (0:ℚ) ≤ 26/10)] at hpair
  norm_num at hpair

/-- C3 (amended): for any `(atol, rtol)` pair, the all-close predicate
holds exactly when the two buffers have equal length and every element
pair `(r, c)` satisfies `|r - c| ≤ atol + rtol·|c|` — the relative term is
taken on the **candidate** element, not the reference; and `NumericalCheck`
reads both result buffers as flat sequences of exactly `ldc*n` (dense)
resp. `batch*stride_c` (batched) elements, so it depends on nothing else
in memory. -/
theorem claim_C3_amended :
    (∀ (self other : List ℚ) (rtol atol : ℚ),
      allcloseQ self other rtol atol = true ↔
        (self.length = other.length ∧
          ∀ pr ∈ List.zip self other, |pr.1 - pr.2| ≤ atol + rtol * |pr.2|)) ∧
    (∀ (h h2 : Heap) (p q : GemmParams),
      readBuf h p.c (p.ldc * p.n) = readBuf h2 p.c (p.ldc * p.n) →
      readBuf h q.c (p.ldc * p.n) = readBuf h2 q.c (p.ldc * p.n) →
      GemmParams.NumericalCheck h p q = GemmParams.NumericalCheck h2 p q) ∧
    (∀ (h h2 : Heap) (p q : GemmStridedBatchedParams),
      readBuf h p.c (p.batch * p.stride_c) = readBuf h2 p.c (p.batch * p.stride_c) →
      readBuf h q.c (p.batch * p.stride_c) = readBuf h2 q.c (p.batch * p.stride_c) →
      GemmStridedBatchedParams.NumericalCheck h p q
        = GemmStridedBatchedParams.NumericalCheck h2 p q) := by
  refine ⟨allcloseQ_iff, fun h h2 p q hp hq => ?_, fun h h2 p q hp hq => ?_⟩
  · rw [denseNumericalCheck_eq, denseNumericalCheck_eq, hp, hq]
  · rw [batchedNumericalCheck_eq,
      batchedNumericalCheck_eq, hp, hq]

/-- C3 witness: the buffer-dependency part instantiated at the sample heap
and descriptor (hypotheses discharged by reflexivity). -/
theorem claim_C3_witness :
    GemmParams.NumericalCheck sampleHeap sampleDense sampleDense
      = GemmParams.NumericalCheck sampleHeap sampleDense sampleDense :=
  claim_C3_amended.2.1 sampleHeap sampleHeap sampleDense sampleDense rfl rfl

/-- C10: `Delete` performs no precondition check — on any receiver
(including one built by the default constructor, which always starts with
`duplicate_inputs_ = false` and borrows caller buffers) it is a total
function that marks the output address `c` freed unconditionally, marks
the input addresses `a` and `b` freed exactly when `duplicate_inputs_` is
true, and touches nothing else (no memory contents, no allocator state,
no error). -/
theorem claim_C10 :
    (∀ (p : GemmParams) (h : Heap) (ad : Nat),
      ((GemmParams.Delete p h).freed ad = true ↔
        (ad = p.c ∨ (p.duplicate_inputs_ = true ∧ (ad = p.a ∨ ad = p.b)) ∨
          h.freed ad = true)) ∧
      (GemmParams.Delete p h).mem = h.mem ∧
      (GemmParams.Delete p h).nextAddr = h.nextAddr ∧
      (p.duplicate_inputs_ = false →
        ((GemmParams.Delete p h).freed ad = true ↔
          (ad = p.c ∨ h.freed ad = true)))) ∧
    (∀ (p : GemmStridedBatchedParams) (h : Heap) (ad : Nat),
      ((GemmStridedBatchedParams.Delete p h).freed ad = true ↔
        (ad = p.c ∨ (p.duplicate_inputs_ = true ∧ (ad = p.a ∨ ad = p.b)) ∨
          h.freed ad = true)) ∧
      (GemmStridedBatchedParams.Delete p h).mem = h.mem ∧
      (GemmStridedBatchedParams.Delete p h).nextAddr = h.nextAddr ∧
      (p.duplicate_inputs_ = false →
        ((GemmStridedBatchedParams.Delete p h).freed ad = true ↔
          (ad = p.c ∨ h.freed ad = true)))) ∧
    (∀ (ta tb : Char) (m n k : Nat) (al : ℚ) (a lda b ldb : Nat) (bet : ℚ)
        (c ldc : Nat),
      (GemmParams.init ta tb m n k al a lda b ldb bet c ldc).duplicate_inputs_
        = false) ∧
    (∀ (ta tb : Char) (m n k : Nat) (al : ℚ) (a lda sa b ldb sb : Nat) (bet : ℚ)
        (c ldc sc bt : Nat),
      (GemmStridedBatchedParams.init ta tb m n k al a lda sa b ldb sb bet c ldc
          sc bt).duplicate_inputs_ = false) := by
  refine ⟨fun p h ad => ?_, fun p h ad => ?_,
    fun ta tb m n k al a lda b ldb bet c ldc => rfl,
    fun ta tb m n k al a lda sa b ldb sb bet c ldc sc bt => rfl⟩
  · cases hdup : p.duplicate_inputs_
    · refine ⟨?_, by simp [GemmParams.Delete, raw_delete, hdup],
        by simp [GemmParams.Delete, raw_delete, hdup], fun _ => ?_⟩ <;>
        · simp only [GemmParams.Delete, raw_delete, hdup, Bool.false_eq_true,
            false_and, false_or]
          split_ifs with h1 <;> simp_all
    · refine ⟨?_, by simp [GemmParams.Delete, raw_delete, hdup],
        by simp [GemmParams.Delete, raw_delete, hdup],
        fun hfalse => absurd hfalse (by simp)⟩
      simp only [GemmParams.Delete, raw_delete, hdup, if_true, true_and]
      split_ifs with h1 h2 h3 <;> simp_all
  · cases hdup : p.duplicate_inputs_
    · refine ⟨?_, by simp [GemmStridedBatchedParams.Delete, raw_delete, hdup],
        by simp [GemmStridedBatchedParams.Delete, raw_delete, hdup], fun _ => ?_⟩ <;>
        · simp only [GemmStridedBatchedParams.Delete, raw_delete, hdup,
            Bool.false_eq_true, false_and, false_or]
          split_ifs with h1 <;> simp_all
    · refine ⟨?_, by simp [GemmStridedBatchedParams.Delete, raw_delete, hdup],
        by simp [GemmStridedBatchedParams.Delete, raw_delete, hdup],
        fun hfalse => absurd hfalse (by simp)⟩
      simp only [GemmStridedBatchedParams.Delete, raw_delete, hdup, if_true, true_and]
      split_ifs with h1 h2 h3 <;> simp_all

/-- C10 witness: deleting the never-copied sample descriptor (flag false)
frees exactly its output address `0`; address `1` stays unfreed. -/
theorem claim_C10_witness :
    ((GemmParams.Delete sampleDense sampleHeap).freed 0 = true ↔
      ((0 : Nat) = sampleDense.c ∨ sampleHeap.freed 0 = true)) ∧
    ((GemmParams.Delete sampleDense sampleHeap).freed 1 = true ↔
      ((1 : Nat) = sampleDense.c ∨ sampleHeap.freed 1 = true)) :=
  ⟨(claim_C10.1 sampleDense sampleHeap 0).2.2.2 rfl,
   (claim_C10.1 sampleDense sampleHeap 1).2.2.2 rfl⟩
